import Mathlib

/-!
Verification of the FirmSwap settlement engine (src/contracts/src/FirmSwap.sol,
src/contracts/src/DepositProxy.sol) and of the quote aggregator's ranking
(src/api/src/aggregator.ts), as a shallow embedding.

Modelling conventions:
* Addresses are `Nat` (0 is the zero address); amounts and timestamps are `Nat`.
* Solidity 0.8 checked arithmetic: every bare `a - b` or `a + b` / `a * b` on
  `uint` that can under/overflow in the source is guarded here and reverts with
  `Err.Overflow` (Solidity's arithmetic panic).  Call parameters are not
  truncated to `2 ^ 256`; this only enlarges the transition system, so every
  invariant proved over it also holds for the real calldata-bounded system.
* keccak256-derived order ids are modelled injectively: an order id is the
  pair (quote, hash-of-solver-signature), the signature hash being an opaque `Nat`.
* ECDSA recovery is abstracted by a boolean `sigOk` ("the signature recovers
  to quote.solver"); token transfers are recorded as an emitted `Transfer`
  list, and balance-difference observations (fee-on-transfer deltas, deposit
  address balances, proxy sweep deltas) enter as explicit parameters.
-/

namespace FirmSwap

abbrev Addr := Nat

/-- MIN_BOND = 1_000e6 (FirmSwap.sol line 41). -/
def MIN_BOND : Nat := 1000000000

/-- MIN_ORDER = 1e6 (FirmSwap.sol line 44). -/
def MIN_ORDER : Nat := 1000000

/-- BOND_RESERVATION_BPS = 500 (FirmSwap.sol line 47). -/
def BOND_RESERVATION_BPS : Nat := 500

/-- UNSTAKE_DELAY = 7 days (FirmSwap.sol line 50). -/
def UNSTAKE_DELAY : Nat := 604800

def U256 : Nat := 2 ^ 256

def U40 : Nat := 2 ^ 40

/-- Symbolic address of the FirmSwap contract itself. -/
def engineAddr : Addr := 2 ^ 160

/-- Symbolic address of the immutable BOND_TOKEN. -/
def bondTokenAddr : Addr := 2 ^ 160 + 1

inductive OrderType where
  | EXACT_INPUT
  | EXACT_OUTPUT
deriving DecidableEq

/-- QuoteLib.FirmSwapQuote. -/
structure Quote where
  solver : Addr
  user : Addr
  inputToken : Addr
  inputAmount : Nat
  outputToken : Addr
  outputAmount : Nat
  orderType : OrderType
  outputChainId : Nat
  depositDeadline : Nat
  fillDeadline : Nat
  nonce : Nat
deriving DecidableEq

inductive OrderState where
  | NONE
  | DEPOSITED
  | SETTLED
  | REFUNDED
deriving DecidableEq

/-- Stored Order record (IFirmSwap.Order). -/
structure Order where
  user : Addr
  solver : Addr
  inputToken : Addr
  inputAmount : Nat
  outputToken : Addr
  outputAmount : Nat
  outputChainId : Nat
  fillDeadline : Nat
  state : OrderState
deriving DecidableEq

/-- An absent mapping entry: all fields zero, state NONE. -/
def Order.none0 : Order := ⟨0, 0, 0, 0, 0, 0, 0, 0, .NONE⟩

/-- SolverInfo record. -/
structure SolverInfo where
  totalBond : Nat
  reservedBond : Nat
  unstakeAmount : Nat
  unstakeTimestamp : Nat
  registered : Bool
deriving DecidableEq

def SolverInfo.empty : SolverInfo := ⟨0, 0, 0, 0, false⟩

/-- orderId = keccak256(encode(quoteHash, keccak256(solverSignature))); the hash
is modelled injectively as the pair (quote, signature-hash). -/
abbrev OrderId := Quote × Nat

/-- The engine's storage. -/
structure EngineState where
  orders : OrderId → Order
  solvers : Addr → SolverInfo
  nonceBitmap : Addr → Nat → Nat
  excessBalances : Addr → Addr → Nat

def initState : EngineState :=
  ⟨fun _ => Order.none0, fun _ => SolverInfo.empty, fun _ _ => 0, fun _ _ => 0⟩

/-- The contract's custom errors, plus `Overflow` for Solidity 0.8 arithmetic panics. -/
inductive Err where
  | InvalidQuote
  | InvalidSignature
  | QuoteExpired
  | FillDeadlineBeforeDeposit
  | WrongChain
  | BelowMinimumOrder
  | NonceAlreadyUsed
  | OrderAlreadyExists
  | OrderNotFound
  | OrderNotDeposited
  | OrderNotExpired
  | NotSolver
  | SolverNotRegistered
  | SolverAlreadyRegistered
  | InsufficientBond
  | BelowMinimumBond
  | InsufficientDeposit
  | NoExcessBalance
  | UnstakeNotReady
  | NoPendingUnstake
  | PendingUnstakeExists
  | Overflow
deriving DecidableEq

/-- An ERC-20 transfer performed by a call (token, recipient, amount). -/
structure Transfer where
  token : Addr
  dest : Addr
  amount : Nat
deriving DecidableEq

def setOrder (s : EngineState) (oid : OrderId) (o : Order) : EngineState :=
  { s with orders := Function.update s.orders oid o }

def setSolver (s : EngineState) (a : Addr) (v : SolverInfo) : EngineState :=
  { s with solvers := Function.update s.solvers a v }

def setBitmapWord (s : EngineState) (a : Addr) (w v : Nat) : EngineState :=
  { s with nonceBitmap :=
      Function.update s.nonceBitmap a (Function.update (s.nonceBitmap a) w v) }

def setExcess (s : EngineState) (u t : Addr) (v : Nat) : EngineState :=
  { s with excessBalances :=
      Function.update s.excessBalances u (Function.update (s.excessBalances u) t v) }

-- ═══════ Nonce bitmap (FirmSwap.sol lines 627-631, 796-803) ═══════

/-- wordPos = uint248(nonce >> 8). -/
def nonceWordPos (nonce : Nat) : Nat := (nonce >>> 8) % 2 ^ 248

/-- bitPos = uint8(nonce). -/
def nonceBitPos (nonce : Nat) : Nat := nonce % 256

/-- isNonceUsed view: (nonceBitmap[solver][wordPos] & (1 << bitPos)) != 0. -/
def isNonceUsed (s : EngineState) (solver : Addr) (nonce : Nat) : Bool :=
  (s.nonceBitmap solver (nonceWordPos nonce)) &&& (1 <<< nonceBitPos nonce) != 0

/-- _useNonce. -/
def useNonce (s : EngineState) (solver : Addr) (nonce : Nat) : Except Err EngineState :=
  let wordPos := nonceWordPos nonce
  let bit := 1 <<< nonceBitPos nonce
  let word := s.nonceBitmap solver wordPos
  if word &&& bit != 0 then .error .NonceAlreadyUsed
  else .ok (setBitmapWord s solver wordPos (word ||| bit))

-- ═══════ Bond management (FirmSwap.sol lines 810-840) ═══════

/-- reservation = (outputAmount * BOND_RESERVATION_BPS) / 10_000, with the
uint256 multiplication-overflow revert. -/
def bondReservation (outputAmount : Nat) : Except Err Nat :=
  if outputAmount * BOND_RESERVATION_BPS < U256 then
    .ok (outputAmount * BOND_RESERVATION_BPS / 10000)
  else .error .Overflow

/-- _checkBond: view-style check, no state change. -/
def checkBond (s : EngineState) (solver : Addr) (outputAmount : Nat) : Except Err Unit :=
  match bondReservation outputAmount with
  | .error e => .error e
  | .ok reservation =>
    let info := s.solvers solver
    if info.totalBond < info.reservedBond then .error .Overflow
    else if info.totalBond - info.reservedBond < reservation then .error .InsufficientBond
    else .ok ()

/-- _reserveBond. -/
def reserveBond (s : EngineState) (solver : Addr) (outputAmount : Nat) :
    Except Err EngineState :=
  match bondReservation outputAmount with
  | .error e => .error e
  | .ok reservation =>
    let info := s.solvers solver
    if info.totalBond < info.reservedBond then .error .Overflow
    else if info.totalBond - info.reservedBond < reservation then .error .InsufficientBond
    else if info.reservedBond + reservation ≥ U256 then .error .Overflow
    else .ok (setSolver s solver { info with reservedBond := info.reservedBond + reservation })

/-- _releaseBond: reservedBond -= reservation (underflow reverts). -/
def releaseBond (s : EngineState) (solver : Addr) (outputAmount : Nat) :
    Except Err EngineState :=
  match bondReservation outputAmount with
  | .error e => .error e
  | .ok reservation =>
    let info := s.solvers solver
    if info.reservedBond < reservation then .error .Overflow
    else .ok (setSolver s solver { info with reservedBond := info.reservedBond - reservation })

/-- _slashBond: slashed = min(reservation, totalBond); totalBond -= slashed;
reservedBond -= reservation when reservedBond >= reservation, else set to 0. -/
def slashBond (s : EngineState) (solver : Addr) (outputAmount : Nat) :
    Except Err (EngineState × Nat) :=
  match bondReservation outputAmount with
  | .error e => .error e
  | .ok reservation =>
    let info := s.solvers solver
    let slashed := if reservation > info.totalBond then info.totalBond else reservation
    let newReserved :=
      if info.reservedBond ≥ reservation then info.reservedBond - reservation else 0
    .ok (setSolver s solver
      { info with totalBond := info.totalBond - slashed, reservedBond := newReserved },
      slashed)

-- ═══════ Quote validation (FirmSwap.sol lines 691-790) ═══════

/-- _validateQuoteCore (checks in source order; `sigOk` abstracts
`ECDSA.recover(digest, solverSignature) == quote.solver`). -/
def validateQuoteCore (cid : Nat) (s : EngineState) (q : Quote) (sigOk : Bool) :
    Except Err Unit :=
  if q.user = 0 then .error .InvalidQuote
  else if q.inputAmount = 0 || q.outputAmount = 0 then .error .InvalidQuote
  else if q.outputAmount < MIN_ORDER then .error .BelowMinimumOrder
  else if q.fillDeadline ≤ q.depositDeadline then .error .FillDeadlineBeforeDeposit
  else if q.outputChainId ≠ cid then .error .WrongChain
  else if !(s.solvers q.solver).registered then .error .SolverNotRegistered
  else if isNonceUsed s q.solver q.nonce then .error .NonceAlreadyUsed
  else if !sigOk then .error .InvalidSignature
  else .ok ()

/-- _validateQuote = core checks plus the deposit-deadline check. -/
def validateQuote (cid : Nat) (s : EngineState) (q : Quote) (sigOk : Bool) (now : Nat) :
    Except Err Unit :=
  match validateQuoteCore cid s q sigOk with
  | .error e => .error e
  | .ok _ => if now > q.depositDeadline then .error .QuoteExpired else .ok ()

/-- _validateQuoteMemory (used by openFor; note: no zero-user check, and the
deposit-deadline check precedes the nonce check). -/
def validateQuoteMemory (cid : Nat) (s : EngineState) (q : Quote) (sigOk : Bool)
    (now : Nat) : Except Err Unit :=
  if q.inputAmount = 0 || q.outputAmount = 0 then .error .InvalidQuote
  else if q.outputAmount < MIN_ORDER then .error .BelowMinimumOrder
  else if q.fillDeadline ≤ q.depositDeadline then .error .FillDeadlineBeforeDeposit
  else if q.outputChainId ≠ cid then .error .WrongChain
  else if !(s.solvers q.solver).registered then .error .SolverNotRegistered
  else if now > q.depositDeadline then .error .QuoteExpired
  else if isNonceUsed s q.solver q.nonce then .error .NonceAlreadyUsed
  else if !sigOk then .error .InvalidSignature
  else .ok ()

/-- The Order record written from a quote. -/
def orderFromQuote (q : Quote) (st : OrderState) : Order :=
  ⟨q.user, q.solver, q.inputToken, q.inputAmount, q.outputToken, q.outputAmount,
    q.outputChainId, q.fillDeadline, st⟩

/-- _validateAndCreateOrder: validate, check no existing order, consume nonce,
reserve bond, store the order as DEPOSITED.  The computed orderId is always
(q, sigId) in this embedding, so only the state is returned. -/
def validateAndCreateOrder (cid : Nat) (s : EngineState) (q : Quote) (sigId : Nat)
    (sigOk : Bool) (now : Nat) : Except Err EngineState :=
  match validateQuote cid s q sigOk now with
  | .error e => .error e
  | .ok _ =>
    let oid : OrderId := (q, sigId)
    if (s.orders oid).state ≠ .NONE then .error .OrderAlreadyExists
    else match useNonce s q.solver q.nonce with
      | .error e => .error e
      | .ok s1 =>
        match reserveBond s1 q.solver q.outputAmount with
        | .error e => .error e
        | .ok s2 => .ok (setOrder s2 oid (orderFromQuote q .DEPOSITED))

-- ═══════ Entry points ═══════

/-- deposit → _depositInternal: create the order, pull input tokens with
balance-difference accounting, then overwrite the stored inputAmount with the
actually received amount (`received` is the observed balance delta). -/
def execDeposit (cid : Nat) (s : EngineState) (q : Quote) (sigId : Nat) (sigOk : Bool)
    (received now : Nat) : Except Err (EngineState × List Transfer) :=
  match validateAndCreateOrder cid s q sigId sigOk now with
  | .error e => .error e
  | .ok s1 =>
    let oid : OrderId := (q, sigId)
    let s2 := setOrder s1 oid { s1.orders oid with inputAmount := received }
    .ok (s2, [⟨q.inputToken, engineAddr, received⟩])

/-- depositWithPermit2: create the order, then pull tokens through Permit2 with
requestedAmount = quote.inputAmount.  There is no balance-difference update of
the stored inputAmount in this path (`received` is what the engine actually
received from the token transfer). -/
def execDepositWithPermit2 (cid : Nat) (s : EngineState) (q : Quote) (sigId : Nat)
    (sigOk : Bool) (received now : Nat) : Except Err (EngineState × List Transfer) :=
  match validateAndCreateOrder cid s q sigId sigOk now with
  | .error e => .error e
  | .ok s1 => .ok (s1, [⟨q.inputToken, engineAddr, received⟩])

/-- openFor (ERC-7683) → _depositInternalMemory: like deposit, but the quote is
decoded from bytes and validated by _validateQuoteMemory. -/
def execOpenFor (cid : Nat) (s : EngineState) (q : Quote) (sigId : Nat) (sigOk : Bool)
    (received now : Nat) : Except Err (EngineState × List Transfer) :=
  match validateQuoteMemory cid s q sigOk now with
  | .error e => .error e
  | .ok _ =>
    let oid : OrderId := (q, sigId)
    if (s.orders oid).state ≠ .NONE then .error .OrderAlreadyExists
    else match useNonce s q.solver q.nonce with
      | .error e => .error e
      | .ok s1 =>
        match reserveBond s1 q.solver q.outputAmount with
        | .error e => .error e
        | .ok s2 =>
          let s3 := setOrder s2 oid (orderFromQuote q .DEPOSITED)
          let s4 := setOrder s3 oid { s3.orders oid with inputAmount := received }
          .ok (s4, [⟨q.inputToken, engineAddr, received⟩])

/-- fill: contract-deposit settlement by the solver. -/
def execFill (s : EngineState) (caller : Addr) (oid : OrderId) (now : Nat) :
    Except Err (EngineState × List Transfer) :=
  let order := s.orders oid
  if order.state ≠ .DEPOSITED then .error .OrderNotDeposited
  else if order.solver ≠ caller then .error .NotSolver
  else if now > order.fillDeadline then .error .QuoteExpired
  else
    let s1 := setOrder s oid { order with state := .SETTLED }
    match releaseBond s1 order.solver order.outputAmount with
    | .error e => .error e
    | .ok s2 =>
      .ok (s2, [⟨order.outputToken, order.user, order.outputAmount⟩,
                ⟨order.inputToken, order.solver, order.inputAmount⟩])

/-- excessBalances[user][token] += excess, with the uint256 addition-overflow revert. -/
def addExcess (s : EngineState) (u t : Addr) (excess : Nat) : Except Err EngineState :=
  if s.excessBalances u t + excess ≥ U256 then .error .Overflow
  else .ok (setExcess s u t (s.excessBalances u t + excess))

/-- settle: atomic address-deposit settlement.  `depositBalance` is
balanceOf(inputToken, depositAddr); `sweepReceived` is the engine's balance
delta after deploying the proxy and sweeping. -/
def execSettle (cid : Nat) (s : EngineState) (q : Quote) (sigId : Nat) (sigOk : Bool)
    (depositBalance sweepReceived now : Nat) : Except Err (EngineState × List Transfer) :=
  match validateQuote cid s q sigOk now with
  | .error e => .error e
  | .ok _ =>
    let oid : OrderId := (q, sigId)
    if (s.orders oid).state ≠ .NONE then .error .OrderAlreadyExists
    else if depositBalance < q.inputAmount then .error .InsufficientDeposit
    else match useNonce s q.solver q.nonce with
      | .error e => .error e
      | .ok s1 =>
        match checkBond s1 q.solver q.outputAmount with
        | .error e => .error e
        | .ok _ =>
          let s2 := setOrder s1 oid (orderFromQuote q .SETTLED)
          let actualReceived := sweepReceived
          let toSolver :=
            if actualReceived > q.inputAmount then q.inputAmount else actualReceived
          let excess := actualReceived - toSolver
          match (if excess > 0 then addExcess s2 q.user q.inputToken excess else .ok s2) with
          | .error e => .error e
          | .ok s3 =>
            .ok (s3, [⟨q.outputToken, q.user, q.outputAmount⟩,
                      ⟨q.inputToken, q.solver, toSolver⟩])

/-- settleWithTolerance: as settle, with the solver-accepted input amount. -/
def execSettleWithTolerance (cid : Nat) (s : EngineState) (q : Quote) (sigId : Nat)
    (sigOk : Bool) (acceptedInputAmount depositBalance sweepReceived now : Nat) :
    Except Err (EngineState × List Transfer) :=
  if acceptedInputAmount > q.inputAmount then .error .InvalidQuote
  else if acceptedInputAmount = 0 then .error .InvalidQuote
  else match validateQuote cid s q sigOk now with
  | .error e => .error e
  | .ok _ =>
    let oid : OrderId := (q, sigId)
    if (s.orders oid).state ≠ .NONE then .error .OrderAlreadyExists
    else if depositBalance < acceptedInputAmount then .error .InsufficientDeposit
    else match useNonce s q.solver q.nonce with
      | .error e => .error e
      | .ok s1 =>
        match checkBond s1 q.solver q.outputAmount with
        | .error e => .error e
        | .ok _ =>
          let s2 := setOrder s1 oid (orderFromQuote q .SETTLED)
          let actualReceived := sweepReceived
          let toSolver :=
            if actualReceived > acceptedInputAmount then acceptedInputAmount
            else actualReceived
          let excess := actualReceived - toSolver
          match (if excess > 0 then addExcess s2 q.user q.inputToken excess else .ok s2) with
          | .error e => .error e
          | .ok s3 =>
            .ok (s3, [⟨q.outputToken, q.user, q.outputAmount⟩,
                      ⟨q.inputToken, q.solver, toSolver⟩])

/-- refund: contract-deposit default path. -/
def execRefund (s : EngineState) (oid : OrderId) (now : Nat) :
    Except Err (EngineState × List Transfer) :=
  let order := s.orders oid
  if order.state ≠ .DEPOSITED then .error .OrderNotDeposited
  else if now ≤ order.fillDeadline then .error .OrderNotExpired
  else match slashBond s order.solver order.outputAmount with
    | .error e => .error e
    | .ok (s1, bondSlash) =>
      let s2 := setOrder s1 oid { order with state := .REFUNDED }
      .ok (s2, ⟨order.inputToken, order.user, order.inputAmount⟩ ::
            (if bondSlash > 0 then [⟨bondTokenAddr, order.user, bondSlash⟩] else []))

/-- refundAddressDeposit: address-deposit default path.  Bond is slashed only
when depositBalance >= quote.inputAmount (griefing protection). -/
def execRefundAddressDeposit (cid : Nat) (s : EngineState) (q : Quote) (sigId : Nat)
    (sigOk : Bool) (depositBalance sweepReceived now : Nat) :
    Except Err (EngineState × List Transfer) :=
  match validateQuoteCore cid s q sigOk with
  | .error e => .error e
  | .ok _ =>
    let oid : OrderId := (q, sigId)
    if (s.orders oid).state ≠ .NONE then .error .OrderAlreadyExists
    else if now ≤ q.fillDeadline then .error .OrderNotExpired
    else if depositBalance = 0 then .error .InsufficientDeposit
    else match useNonce s q.solver q.nonce with
      | .error e => .error e
      | .ok s1 =>
        let fullDeposit := depositBalance ≥ q.inputAmount
        match (if fullDeposit then slashBond s1 q.solver q.outputAmount
               else .ok (s1, 0)) with
        | .error e => .error e
        | .ok (s2, bondSlash) =>
          let s3 := setOrder s2 oid (orderFromQuote q .REFUNDED)
          .ok (s3, ⟨q.inputToken, q.user, sweepReceived⟩ ::
                (if bondSlash > 0 then [⟨bondTokenAddr, q.user, bondSlash⟩] else []))

/-- recoverFromProxy: after SETTLED/REFUNDED, sweep any token still at the
deployed proxy to the user.  `proxyBalance` is the proxy's balance of `token`;
DepositProxy.sweep transfers it only when nonzero.  No storage is written. -/
def execRecoverFromProxy (s : EngineState) (q : Quote) (sigId : Nat) (token : Addr)
    (proxyBalance : Nat) : Except Err (EngineState × List Transfer) :=
  let oid : OrderId := (q, sigId)
  let st := (s.orders oid).state
  if st ≠ .SETTLED && st ≠ .REFUNDED then .error .OrderNotFound
  else .ok (s, if proxyBalance > 0 then [⟨token, q.user, proxyBalance⟩] else [])

/-- deployAndRecover: wrong-token recovery (token must differ from the quoted
input token); consumes the nonce and stores the order as REFUNDED, no slash. -/
def execDeployAndRecover (cid : Nat) (s : EngineState) (q : Quote) (sigId : Nat)
    (sigOk : Bool) (token : Addr) (sweepReceived now : Nat) :
    Except Err (EngineState × List Transfer) :=
  if token = q.inputToken then .error .InvalidQuote
  else match validateQuoteCore cid s q sigOk with
  | .error e => .error e
  | .ok _ =>
    let oid : OrderId := (q, sigId)
    if (s.orders oid).state ≠ .NONE then .error .OrderAlreadyExists
    else if now ≤ q.fillDeadline then .error .OrderNotExpired
    else match useNonce s q.solver q.nonce with
      | .error e => .error e
      | .ok s1 =>
        let s2 := setOrder s1 oid (orderFromQuote q .REFUNDED)
        .ok (s2, if sweepReceived > 0 then [⟨token, q.user, sweepReceived⟩] else [])

/-- withdrawExcess. -/
def execWithdrawExcess (s : EngineState) (caller token : Addr) :
    Except Err (EngineState × List Transfer) :=
  let amount := s.excessBalances caller token
  if amount = 0 then .error .NoExcessBalance
  else .ok (setExcess s caller token 0, [⟨token, caller, amount⟩])

/-- registerSolver. -/
def execRegisterSolver (s : EngineState) (caller : Addr) (bondAmount : Nat) :
    Except Err (EngineState × List Transfer) :=
  if (s.solvers caller).registered then .error .SolverAlreadyRegistered
  else if bondAmount < MIN_BOND then .error .BelowMinimumBond
  else .ok (setSolver s caller ⟨bondAmount, 0, 0, 0, true⟩,
        [⟨bondTokenAddr, engineAddr, bondAmount⟩])

/-- addBond. -/
def execAddBond (s : EngineState) (caller : Addr) (amount : Nat) :
    Except Err (EngineState × List Transfer) :=
  let info := s.solvers caller
  if !info.registered then .error .SolverNotRegistered
  else if info.totalBond + amount ≥ U256 then .error .Overflow
  else .ok (setSolver s caller { info with totalBond := info.totalBond + amount },
        [⟨bondTokenAddr, engineAddr, amount⟩])

/-- requestUnstake: the unlock time is uint40(block.timestamp) + UNSTAKE_DELAY
with uint40 checked addition. -/
def execRequestUnstake (s : EngineState) (caller : Addr) (amount now : Nat) :
    Except Err (EngineState × List Transfer) :=
  let info := s.solvers caller
  if !info.registered then .error .SolverNotRegistered
  else if info.unstakeAmount > 0 then .error .PendingUnstakeExists
  else if info.totalBond < info.reservedBond then .error .Overflow
  else if info.totalBond - info.reservedBond < amount then .error .InsufficientBond
  else if info.totalBond - amount < MIN_BOND then .error .BelowMinimumBond
  else if now % U40 + UNSTAKE_DELAY ≥ U40 then .error .Overflow
  else .ok (setSolver s caller
        { info with unstakeAmount := amount,
                    unstakeTimestamp := now % U40 + UNSTAKE_DELAY }, [])

/-- cancelUnstake. -/
def execCancelUnstake (s : EngineState) (caller : Addr) :
    Except Err (EngineState × List Transfer) :=
  let info := s.solvers caller
  if info.unstakeAmount = 0 then .error .NoPendingUnstake
  else .ok (setSolver s caller { info with unstakeAmount := 0, unstakeTimestamp := 0 }, [])

/-- executeUnstake: totalBond -= unstakeAmount after the timelock.  Note: no
re-check against reservedBond. -/
def execExecuteUnstake (s : EngineState) (caller : Addr) (now : Nat) :
    Except Err (EngineState × List Transfer) :=
  let info := s.solvers caller
  if info.unstakeAmount = 0 then .error .NoPendingUnstake
  else if now < info.unstakeTimestamp then .error .UnstakeNotReady
  else if info.totalBond < info.unstakeAmount then .error .Overflow
  else .ok (setSolver s caller
        { info with totalBond := info.totalBond - info.unstakeAmount,
                    unstakeAmount := 0, unstakeTimestamp := 0 },
        [⟨bondTokenAddr, caller, info.unstakeAmount⟩])

/-- cancelNonce. -/
def execCancelNonce (s : EngineState) (caller : Addr) (nonce : Nat) :
    Except Err (EngineState × List Transfer) :=
  match useNonce s caller nonce with
  | .error e => .error e
  | .ok s1 => .ok (s1, [])

/-- cancelNonces(wordPos, mask): nonceBitmap[msg.sender][wordPos] |= mask. -/
def execCancelNonces (s : EngineState) (caller : Addr) (wordPos mask : Nat) :
    Except Err (EngineState × List Transfer) :=
  let w := wordPos % 2 ^ 248
  .ok (setBitmapWord s caller w ((s.nonceBitmap caller w) ||| (mask % U256)), [])

-- ═══════ Transactions and reachability ═══════

/-- One external call to the engine, together with the environment facts it
observes (msg.sender, block.timestamp, signature validity, token balance deltas). -/
inductive Tx where
  | registerSolver (caller : Addr) (bondAmount : Nat)
  | addBond (caller : Addr) (amount : Nat)
  | deposit (q : Quote) (sigId : Nat) (sigOk : Bool) (received now : Nat)
  | depositWithPermit2 (q : Quote) (sigId : Nat) (sigOk : Bool) (received now : Nat)
  | openFor (q : Quote) (sigId : Nat) (sigOk : Bool) (received now : Nat)
  | fill (caller : Addr) (oid : OrderId) (now : Nat)
  | settle (q : Quote) (sigId : Nat) (sigOk : Bool) (depositBalance sweepReceived now : Nat)
  | settleWithTolerance (q : Quote) (sigId : Nat) (sigOk : Bool)
      (acceptedInputAmount depositBalance sweepReceived now : Nat)
  | refund (oid : OrderId) (now : Nat)
  | refundAddressDeposit (q : Quote) (sigId : Nat) (sigOk : Bool)
      (depositBalance sweepReceived now : Nat)
  | recoverFromProxy (q : Quote) (sigId : Nat) (token : Addr) (proxyBalance : Nat)
  | deployAndRecover (q : Quote) (sigId : Nat) (sigOk : Bool) (token : Addr)
      (sweepReceived now : Nat)
  | withdrawExcess (caller token : Addr)
  | requestUnstake (caller : Addr) (amount now : Nat)
  | cancelUnstake (caller : Addr)
  | executeUnstake (caller : Addr) (now : Nat)
  | cancelNonce (caller : Addr) (nonce : Nat)
  | cancelNonces (caller : Addr) (wordPos mask : Nat)

/-- Dispatch a call. -/
def execTx (cid : Nat) (s : EngineState) : Tx → Except Err (EngineState × List Transfer)
  | .registerSolver caller amt => execRegisterSolver s caller amt
  | .addBond caller amt => execAddBond s caller amt
  | .deposit q sigId sigOk received now => execDeposit cid s q sigId sigOk received now
  | .depositWithPermit2 q sigId sigOk received now =>
      execDepositWithPermit2 cid s q sigId sigOk received now
  | .openFor q sigId sigOk received now => execOpenFor cid s q sigId sigOk received now
  | .fill caller oid now => execFill s caller oid now
  | .settle q sigId sigOk b recv now => execSettle cid s q sigId sigOk b recv now
  | .settleWithTolerance q sigId sigOk tol b recv now =>
      execSettleWithTolerance cid s q sigId sigOk tol b recv now
  | .refund oid now => execRefund s oid now
  | .refundAddressDeposit q sigId sigOk b recv now =>
      execRefundAddressDeposit cid s q sigId sigOk b recv now
  | .recoverFromProxy q sigId token bal => execRecoverFromProxy s q sigId token bal
  | .deployAndRecover q sigId sigOk token recv now =>
      execDeployAndRecover cid s q sigId sigOk token recv now
  | .withdrawExcess caller token => execWithdrawExcess s caller token
  | .requestUnstake caller amt now => execRequestUnstake s caller amt now
  | .cancelUnstake caller => execCancelUnstake s caller
  | .executeUnstake caller now => execExecuteUnstake s caller now
  | .cancelNonce caller nonce => execCancelNonce s caller nonce
  | .cancelNonces caller wordPos mask => execCancelNonces s caller wordPos mask

/-- EVM transaction semantics: a reverting call leaves storage unchanged. -/
def applyTx (cid : Nat) (s : EngineState) (tx : Tx) : EngineState :=
  match execTx cid s tx with
  | .ok (s1, _) => s1
  | .error _ => s

/-- Run a sequence of calls. -/
def applyAll (cid : Nat) (s : EngineState) (txs : List Tx) : EngineState :=
  txs.foldl (applyTx cid) s

/-- A state is reachable when some call sequence produces it from the empty state. -/
def Reachable (cid : Nat) (s : EngineState) : Prop :=
  ∃ txs : List Tx, applyAll cid initState txs = s

instance {ε α : Type} [DecidableEq ε] [DecidableEq α] : DecidableEq (Except ε α) := fun x y =>
  match x, y with
  | .ok u, .ok v => decidable_of_iff (u = v) (by simp)
  | .error u, .error v => decidable_of_iff (u = v) (by simp)
  | .ok _, .error _ => isFalse (by simp)
  | .error _, .ok _ => isFalse (by simp)

-- ═══════ Nonce-bitmap monotonicity machinery ═══════

/-- Every set bit of `s` is still set in `s'`. -/
def BitmapLe (s s' : EngineState) : Prop :=
  ∀ a w i, (s.nonceBitmap a w).testBit i = true → (s'.nonceBitmap a w).testBit i = true

theorem bitmapLe_refl (s : EngineState) : BitmapLe s s := fun _ _ _ h => h

theorem bitmapLe_trans {s t u : EngineState} (h1 : BitmapLe s t) (h2 : BitmapLe t u) :
    BitmapLe s u := fun a w i h => h2 a w i (h1 a w i h)

theorem bitmapLe_of_eq {s s' : EngineState} (h : s'.nonceBitmap = s.nonceBitmap) :
    BitmapLe s s' := fun a w i hb => by rw [h]; exact hb

theorem setBitmapWord_or_bitmapLe (s : EngineState) (a w m : Nat) :
    BitmapLe s (setBitmapWord s a w ((s.nonceBitmap a w) ||| m)) := by
  intro b w' i hb
  unfold setBitmapWord
  by_cases hba : b = a
  · subst hba
    by_cases hw : w' = w
    · subst hw
      simp [Function.update_same, Nat.testBit_or, hb]
    · simp [Function.update_same, Function.update_apply, hw, hb]
  · simp [Function.update_apply, hba, hb]

theorem useNonce_bitmapLe {s s' : EngineState} {a n : Nat}
    (h : useNonce s a n = .ok s') : BitmapLe s s' := by
  unfold useNonce at h
  dsimp only [] at h
  split at h
  · exact Except.noConfusion h
  · injection h with h1
    subst h1
    exact setBitmapWord_or_bitmapLe s a (nonceWordPos n) (1 <<< nonceBitPos n)

theorem reserveBond_nonceBitmap {s s' : EngineState} {a o : Nat}
    (h : reserveBond s a o = .ok s') : s'.nonceBitmap = s.nonceBitmap := by
  unfold reserveBond at h
  split at h
  · exact Except.noConfusion h
  · dsimp only [] at h
    split at h
    · exact Except.noConfusion h
    · split at h
      · exact Except.noConfusion h
      · split at h
        · exact Except.noConfusion h
        · injection h with h1
          subst h1
          rfl

theorem releaseBond_nonceBitmap {s s' : EngineState} {a o : Nat}
    (h : releaseBond s a o = .ok s') : s'.nonceBitmap = s.nonceBitmap := by
  unfold releaseBond at h
  split at h
  · exact Except.noConfusion h
  · dsimp only [] at h
    split at h
    · exact Except.noConfusion h
    · injection h with h1
      subst h1
      rfl

theorem slashBond_nonceBitmap {s : EngineState} {a o : Nat} {out : EngineState × Nat}
    (h : slashBond s a o = .ok out) : out.1.nonceBitmap = s.nonceBitmap := by
  unfold slashBond at h
  split at h
  · exact Except.noConfusion h
  · dsimp only [] at h
    injection h with h1
    subst h1
    rfl

theorem addExcess_nonceBitmap {s s' : EngineState} {u t amt : Nat}
    (h : addExcess s u t amt = .ok s') : s'.nonceBitmap = s.nonceBitmap := by
  unfold addExcess at h
  split at h
  · exact Except.noConfusion h
  · injection h with h1
    subst h1
    rfl

theorem validateAndCreateOrder_bitmapLe {cid : Nat} {s : EngineState} {q : Quote}
    {sigId : Nat} {sigOk : Bool} {now : Nat} {out : EngineState}
    (h : validateAndCreateOrder cid s q sigId sigOk now = .ok out) : BitmapLe s out := by
  unfold validateAndCreateOrder at h
  cases hval : validateQuote cid s q sigOk now with
  | error e => rw [hval] at h; exact Except.noConfusion h
  | ok u =>
    rw [hval] at h
    dsimp only [] at h
    by_cases hex : (s.orders (q, sigId)).state ≠ OrderState.NONE
    · rw [if_pos hex] at h; exact Except.noConfusion h
    · rw [if_neg hex] at h
      cases hn : useNonce s q.solver q.nonce with
      | error e => rw [hn] at h; exact Except.noConfusion h
      | ok s1 =>
        rw [hn] at h
        dsimp only [] at h
        cases hr : reserveBond s1 q.solver q.outputAmount with
        | error e => rw [hr] at h; exact Except.noConfusion h
        | ok s2 =>
          rw [hr] at h
          dsimp only [] at h
          injection h with h1
          subst h1
          exact bitmapLe_trans (useNonce_bitmapLe hn)
            (bitmapLe_trans (bitmapLe_of_eq (reserveBond_nonceBitmap hr))
              (bitmapLe_of_eq rfl))

theorem addExcessIte_nonceBitmap {s s' : EngineState} {u t e : Nat} {c : Prop}
    {inst : Decidable c} (h : (@ite _ c inst (addExcess s u t e) (.ok s)) = .ok s') :
    s'.nonceBitmap = s.nonceBitmap := by
  split at h
  · exact addExcess_nonceBitmap h
  · injection h with h1; subst h1; rfl

theorem slashIte_nonceBitmap {s : EngineState} {a o : Nat} {c : Prop}
    {inst : Decidable c} {out : EngineState × Nat}
    (h : (@ite _ c inst (slashBond s a o) (.ok (s, 0))) = .ok out) :
    out.1.nonceBitmap = s.nonceBitmap := by
  split at h
  · exact slashBond_nonceBitmap h
  · injection h with h1; subst h1; rfl

theorem execDeposit_bitmapLe {cid : Nat} {s : EngineState} {q : Quote}
    {sigId : Nat} {sigOk : Bool} {received now : Nat} {out : EngineState × List Transfer}
    (h : execDeposit cid s q sigId sigOk received now = .ok out) : BitmapLe s out.1 := by
  unfold execDeposit at h
  cases hv : validateAndCreateOrder cid s q sigId sigOk now with
  | error e => rw [hv] at h; exact Except.noConfusion h
  | ok s1 =>
    rw [hv] at h
    dsimp only [] at h
    injection h with h1
    subst h1
    exact bitmapLe_trans (validateAndCreateOrder_bitmapLe hv) (bitmapLe_of_eq rfl)

theorem execDepositWithPermit2_bitmapLe {cid : Nat} {s : EngineState} {q : Quote}
    {sigId : Nat} {sigOk : Bool} {received now : Nat} {out : EngineState × List Transfer}
    (h : execDepositWithPermit2 cid s q sigId sigOk received now = .ok out) :
    BitmapLe s out.1 := by
  unfold execDepositWithPermit2 at h
  cases hv : validateAndCreateOrder cid s q sigId sigOk now with
  | error e => rw [hv] at h; exact Except.noConfusion h
  | ok s1 =>
    rw [hv] at h
    dsimp only [] at h
    injection h with h1
    subst h1
    exact validateAndCreateOrder_bitmapLe hv

theorem execOpenFor_bitmapLe {cid : Nat} {s : EngineState} {q : Quote}
    {sigId : Nat} {sigOk : Bool} {received now : Nat} {out : EngineState × List Transfer}
    (h : execOpenFor cid s q sigId sigOk received now = .ok out) : BitmapLe s out.1 := by
  unfold execOpenFor at h
  cases hval : validateQuoteMemory cid s q sigOk now with
  | error e => rw [hval] at h; exact Except.noConfusion h
  | ok u =>
    rw [hval] at h
    dsimp only [] at h
    by_cases hex : (s.orders (q, sigId)).state ≠ OrderState.NONE
    · rw [if_pos hex] at h; exact Except.noConfusion h
    · rw [if_neg hex] at h
      cases hn : useNonce s q.solver q.nonce with
      | error e => rw [hn] at h; exact Except.noConfusion h
      | ok s1 =>
        rw [hn] at h
        dsimp only [] at h
        cases hr : reserveBond s1 q.solver q.outputAmount with
        | error e => rw [hr] at h; exact Except.noConfusion h
        | ok s2 =>
          rw [hr] at h
          dsimp only [] at h
          injection h with h1
          subst h1
          exact bitmapLe_trans (useNonce_bitmapLe hn)
            (bitmapLe_trans (bitmapLe_of_eq (reserveBond_nonceBitmap hr))
              (bitmapLe_of_eq rfl))

theorem execFill_bitmapLe {s : EngineState} {caller : Addr} {oid : OrderId} {now : Nat}
    {out : EngineState × List Transfer}
    (h : execFill s caller oid now = .ok out) : BitmapLe s out.1 := by
  unfold execFill at h
  dsimp only [] at h
  split at h
  · exact Except.noConfusion h
  · split at h
    · exact Except.noConfusion h
    · split at h
      · exact Except.noConfusion h
      · cases hr : releaseBond (setOrder s oid { s.orders oid with state := .SETTLED })
            (s.orders oid).solver (s.orders oid).outputAmount with
        | error e => rw [hr] at h; exact Except.noConfusion h
        | ok s2 =>
          rw [hr] at h
          dsimp only [] at h
          injection h with h1
          subst h1
          intro a w i hb
          rw [releaseBond_nonceBitmap hr]
          exact hb

theorem execSettle_bitmapLe {cid : Nat} {s : EngineState} {q : Quote} {sigId : Nat}
    {sigOk : Bool} {b recv now : Nat} {out : EngineState × List Transfer}
    (h : execSettle cid s q sigId sigOk b recv now = .ok out) : BitmapLe s out.1 := by
  unfold execSettle at h
  cases hval : validateQuote cid s q sigOk now with
  | error e => rw [hval] at h; exact Except.noConfusion h
  | ok u =>
    rw [hval] at h
    dsimp only [] at h
    by_cases hex : (s.orders (q, sigId)).state ≠ OrderState.NONE
    · rw [if_pos hex] at h; exact Except.noConfusion h
    · rw [if_neg hex] at h
      by_cases hbal : b < q.inputAmount
      · rw [if_pos hbal] at h; exact Except.noConfusion h
      · rw [if_neg hbal] at h
        cases hn : useNonce s q.solver q.nonce with
        | error e => rw [hn] at h; exact Except.noConfusion h
        | ok s1 =>
          rw [hn] at h
          dsimp only [] at h
          cases hc : checkBond s1 q.solver q.outputAmount with
          | error e => rw [hc] at h; exact Except.noConfusion h
          | ok u2 =>
            rw [hc] at h
            dsimp only [] at h
            split at h
            · exact Except.noConfusion h
            next s3 hax =>
              injection h with h1
              subst h1
              intro a w i hb
              rw [addExcessIte_nonceBitmap hax]
              exact useNonce_bitmapLe hn a w i hb

theorem execSettleWithTolerance_bitmapLe {cid : Nat} {s : EngineState} {q : Quote}
    {sigId : Nat} {sigOk : Bool} {tol b recv now : Nat} {out : EngineState × List Transfer}
    (h : execSettleWithTolerance cid s q sigId sigOk tol b recv now = .ok out) :
    BitmapLe s out.1 := by
  unfold execSettleWithTolerance at h
  split at h
  · exact Except.noConfusion h
  · split at h
    · exact Except.noConfusion h
    · cases hval : validateQuote cid s q sigOk now with
      | error e => rw [hval] at h; exact Except.noConfusion h
      | ok u =>
        rw [hval] at h
        dsimp only [] at h
        by_cases hex : (s.orders (q, sigId)).state ≠ OrderState.NONE
        · rw [if_pos hex] at h; exact Except.noConfusion h
        · rw [if_neg hex] at h
          by_cases hbal : b < tol
          · rw [if_pos hbal] at h; exact Except.noConfusion h
          · rw [if_neg hbal] at h
            cases hn : useNonce s q.solver q.nonce with
            | error e => rw [hn] at h; exact Except.noConfusion h
            | ok s1 =>
              rw [hn] at h
              dsimp only [] at h
              cases hc : checkBond s1 q.solver q.outputAmount with
              | error e => rw [hc] at h; exact Except.noConfusion h
              | ok u2 =>
                rw [hc] at h
                dsimp only [] at h
                split at h
                · exact Except.noConfusion h
                next s3 hax =>
                  injection h with h1
                  subst h1
                  intro a w i hb
                  rw [addExcessIte_nonceBitmap hax]
                  exact useNonce_bitmapLe hn a w i hb

theorem execRefund_bitmapLe {s : EngineState} {oid : OrderId} {now : Nat}
    {out : EngineState × List Transfer}
    (h : execRefund s oid now = .ok out) : BitmapLe s out.1 := by
  unfold execRefund at h
  dsimp only [] at h
  split at h
  · exact Except.noConfusion h
  · split at h
    · exact Except.noConfusion h
    · cases hs : slashBond s (s.orders oid).solver (s.orders oid).outputAmount with
      | error e => rw [hs] at h; exact Except.noConfusion h
      | ok p =>
        obtain ⟨s1, bondSlash⟩ := p
        rw [hs] at h
        dsimp only [] at h
        injection h with h1
        subst h1
        exact bitmapLe_of_eq (slashBond_nonceBitmap hs)

theorem execRefundAddressDeposit_bitmapLe {cid : Nat} {s : EngineState} {q : Quote}
    {sigId : Nat} {sigOk : Bool} {b recv now : Nat} {out : EngineState × List Transfer}
    (h : execRefundAddressDeposit cid s q sigId sigOk b recv now = .ok out) :
    BitmapLe s out.1 := by
  unfold execRefundAddressDeposit at h
  cases hval : validateQuoteCore cid s q sigOk with
  | error e => rw [hval] at h; exact Except.noConfusion h
  | ok u =>
    rw [hval] at h
    dsimp only [] at h
    by_cases hex : (s.orders (q, sigId)).state ≠ OrderState.NONE
    · rw [if_pos hex] at h; exact Except.noConfusion h
    · rw [if_neg hex] at h
      by_cases hexp : now ≤ q.fillDeadline
      · rw [if_pos hexp] at h; exact Except.noConfusion h
      · rw [if_neg hexp] at h
        by_cases hzero : b = 0
        · rw [if_pos hzero] at h; exact Except.noConfusion h
        · rw [if_neg hzero] at h
          cases hn : useNonce s q.solver q.nonce with
          | error e => rw [hn] at h; exact Except.noConfusion h
          | ok s1 =>
            rw [hn] at h
            dsimp only [] at h
            split at h
            · exact Except.noConfusion h
            next p hsl =>
              injection h with h1
              subst h1
              exact bitmapLe_trans (useNonce_bitmapLe hn)
                (bitmapLe_trans (bitmapLe_of_eq (slashIte_nonceBitmap hsl))
                  (bitmapLe_of_eq rfl))

theorem execRecoverFromProxy_bitmapLe {s : EngineState} {q : Quote} {sigId : Nat}
    {token : Addr} {bal : Nat} {out : EngineState × List Transfer}
    (h : execRecoverFromProxy s q sigId token bal = .ok out) : BitmapLe s out.1 := by
  unfold execRecoverFromProxy at h
  dsimp only [] at h
  split at h
  · exact Except.noConfusion h
  · injection h with h1
    subst h1
    exact bitmapLe_refl s

theorem execDeployAndRecover_bitmapLe {cid : Nat} {s : EngineState} {q : Quote}
    {sigId : Nat} {sigOk : Bool} {token : Addr} {recv now : Nat}
    {out : EngineState × List Transfer}
    (h : execDeployAndRecover cid s q sigId sigOk token recv now = .ok out) :
    BitmapLe s out.1 := by
  unfold execDeployAndRecover at h
  split at h
  · exact Except.noConfusion h
  · cases hval : validateQuoteCore cid s q sigOk with
    | error e => rw [hval] at h; exact Except.noConfusion h
    | ok u =>
      rw [hval] at h
      dsimp only [] at h
      by_cases hex : (s.orders (q, sigId)).state ≠ OrderState.NONE
      · rw [if_pos hex] at h; exact Except.noConfusion h
      · rw [if_neg hex] at h
        by_cases hexp : now ≤ q.fillDeadline
        · rw [if_pos hexp] at h; exact Except.noConfusion h
        · rw [if_neg hexp] at h
          cases hn : useNonce s q.solver q.nonce with
          | error e => rw [hn] at h; exact Except.noConfusion h
          | ok s1 =>
            rw [hn] at h
            dsimp only [] at h
            injection h with h1
            subst h1
            exact bitmapLe_trans (useNonce_bitmapLe hn) (bitmapLe_of_eq rfl)

theorem execWithdrawExcess_bitmapLe {s : EngineState} {caller token : Addr}
    {out : EngineState × List Transfer}
    (h : execWithdrawExcess s caller token = .ok out) : BitmapLe s out.1 := by
  unfold execWithdrawExcess at h
  dsimp only [] at h
  split at h
  · exact Except.noConfusion h
  · injection h with h1
    subst h1
    exact bitmapLe_of_eq rfl

theorem execRegisterSolver_bitmapLe {s : EngineState} {caller : Addr} {amt : Nat}
    {out : EngineState × List Transfer}
    (h : execRegisterSolver s caller amt = .ok out) : BitmapLe s out.1 := by
  unfold execRegisterSolver at h
  split at h
  · exact Except.noConfusion h
  · split at h
    · exact Except.noConfusion h
    · injection h with h1
      subst h1
      exact bitmapLe_of_eq rfl

theorem execAddBond_bitmapLe {s : EngineState} {caller : Addr} {amt : Nat}
    {out : EngineState × List Transfer}
    (h : execAddBond s caller amt = .ok out) : BitmapLe s out.1 := by
  unfold execAddBond at h
  dsimp only [] at h
  split at h
  · exact Except.noConfusion h
  · split at h
    · exact Except.noConfusion h
    · injection h with h1
      subst h1
      exact bitmapLe_of_eq rfl

theorem execRequestUnstake_bitmapLe {s : EngineState} {caller : Addr} {amt now : Nat}
    {out : EngineState × List Transfer}
    (h : execRequestUnstake s caller amt now = .ok out) : BitmapLe s out.1 := by
  unfold execRequestUnstake at h
  dsimp only [] at h
  split at h
  · exact Except.noConfusion h
  · split at h
    · exact Except.noConfusion h
    · split at h
      · exact Except.noConfusion h
      · split at h
        · exact Except.noConfusion h
        · split at h
          · exact Except.noConfusion h
          · split at h
            · exact Except.noConfusion h
            · injection h with h1
              subst h1
              exact bitmapLe_of_eq rfl

theorem execCancelUnstake_bitmapLe {s : EngineState} {caller : Addr}
    {out : EngineState × List Transfer}
    (h : execCancelUnstake s caller = .ok out) : BitmapLe s out.1 := by
  unfold execCancelUnstake at h
  dsimp only [] at h
  split at h
  · exact Except.noConfusion h
  · injection h with h1
    subst h1
    exact bitmapLe_of_eq rfl

theorem execExecuteUnstake_bitmapLe {s : EngineState} {caller : Addr} {now : Nat}
    {out : EngineState × List Transfer}
    (h : execExecuteUnstake s caller now = .ok out) : BitmapLe s out.1 := by
  unfold execExecuteUnstake at h
  dsimp only [] at h
  split at h
  · exact Except.noConfusion h
  · split at h
    · exact Except.noConfusion h
    · split at h
      · exact Except.noConfusion h
      · injection h with h1
        subst h1
        exact bitmapLe_of_eq rfl

theorem execCancelNonce_bitmapLe {s : EngineState} {caller : Addr} {nonce : Nat}
    {out : EngineState × List Transfer}
    (h : execCancelNonce s caller nonce = .ok out) : BitmapLe s out.1 := by
  unfold execCancelNonce at h
  cases hn : useNonce s caller nonce with
  | error e => rw [hn] at h; exact Except.noConfusion h
  | ok s1 =>
    rw [hn] at h
    dsimp only [] at h
    injection h with h1
    subst h1
    exact useNonce_bitmapLe hn

theorem execCancelNonces_bitmapLe {s : EngineState} {caller : Addr} {wordPos mask : Nat}
    {out : EngineState × List Transfer}
    (h : execCancelNonces s caller wordPos mask = .ok out) : BitmapLe s out.1 := by
  unfold execCancelNonces at h
  dsimp only [] at h
  injection h with h1
  subst h1
  exact setBitmapWord_or_bitmapLe s caller (wordPos % 2 ^ 248) (mask % U256)

theorem execTx_bitmapLe {cid : Nat} {s : EngineState} {tx : Tx}
    {out : EngineState × List Transfer}
    (h : execTx cid s tx = .ok out) : BitmapLe s out.1 := by
  cases tx <;> simp only [execTx] at h
  case registerSolver => exact execRegisterSolver_bitmapLe h
  case addBond => exact execAddBond_bitmapLe h
  case deposit => exact execDeposit_bitmapLe h
  case depositWithPermit2 => exact execDepositWithPermit2_bitmapLe h
  case openFor => exact execOpenFor_bitmapLe h
  case fill => exact execFill_bitmapLe h
  case settle => exact execSettle_bitmapLe h
  case settleWithTolerance => exact execSettleWithTolerance_bitmapLe h
  case refund => exact execRefund_bitmapLe h
  case refundAddressDeposit => exact execRefundAddressDeposit_bitmapLe h
  case recoverFromProxy => exact execRecoverFromProxy_bitmapLe h
  case deployAndRecover => exact execDeployAndRecover_bitmapLe h
  case withdrawExcess => exact execWithdrawExcess_bitmapLe h
  case requestUnstake => exact execRequestUnstake_bitmapLe h
  case cancelUnstake => exact execCancelUnstake_bitmapLe h
  case executeUnstake => exact execExecuteUnstake_bitmapLe h
  case cancelNonce => exact execCancelNonce_bitmapLe h
  case cancelNonces => exact execCancelNonces_bitmapLe h

theorem applyTx_bitmapLe (cid : Nat) (s : EngineState) (tx : Tx) :
    BitmapLe s (applyTx cid s tx) := by
  unfold applyTx
  cases hx : execTx cid s tx with
  | ok out => exact execTx_bitmapLe hx
  | error e => exact bitmapLe_refl s

theorem applyAll_bitmapLe (cid : Nat) (s : EngineState) (txs : List Tx) :
    BitmapLe s (applyAll cid s txs) := by
  induction txs generalizing s with
  | nil => exact bitmapLe_refl s
  | cons tx rest ih =>
    exact bitmapLe_trans (applyTx_bitmapLe cid s tx) (ih (applyTx cid s tx))

theorem and_shift_ne_zero (w j : Nat) : (w &&& (1 <<< j) != 0) = w.testBit j := by
  rw [Nat.one_shiftLeft, Nat.and_two_pow]
  cases h : w.testBit j <;> simp [h]

theorem nonceWordPos_eq {n : Nat} (h : n < U256) : nonceWordPos n = n / 256 := by
  unfold nonceWordPos
  have h2 : n >>> 8 < 2 ^ 248 := by
    rw [Nat.shiftRight_eq_div_pow]
    have hlt : n < 2 ^ 248 * 2 ^ 8 := by
      have : U256 = 2 ^ 248 * 2 ^ 8 := by norm_num [U256]
      omega
    exact Nat.div_lt_of_lt_mul hlt
  rw [Nat.mod_eq_of_lt h2, Nat.shiftRight_eq_div_pow]

/-- C7: the engine stores nonce n's used-flag as bit (n mod 256) of bitmap word
(n / 256) — isNonceUsed reads exactly that bit and _useNonce sets exactly that
bit — and every state-mutating entry point only ever ORs bits into the bitmap,
so once isNonceUsed(solver, n) is true it remains true in every later
reachable state (applyAll runs any sequence of entry-point calls). -/
theorem nonce_bit_layout_and_monotonicity :
    (∀ (s : EngineState) (a n : Nat), n < U256 →
        isNonceUsed s a n = (s.nonceBitmap a (n / 256)).testBit (n % 256)) ∧
    (∀ (s s' : EngineState) (a n : Nat), useNonce s a n = .ok s' →
        s'.nonceBitmap a (nonceWordPos n) =
          s.nonceBitmap a (nonceWordPos n) ||| 1 <<< (n % 256)) ∧
    (∀ (cid : Nat) (s : EngineState) (txs : List Tx) (a n : Nat),
        isNonceUsed s a n = true → isNonceUsed (applyAll cid s txs) a n = true) := by
  refine ⟨?_, ?_, ?_⟩
  · intro s a n hn
    unfold isNonceUsed
    rw [nonceWordPos_eq hn]
    exact and_shift_ne_zero _ (nonceBitPos n)
  · intro s s' a n h
    unfold useNonce at h
    dsimp only [] at h
    split at h
    · exact Except.noConfusion h
    · injection h with h1
      subst h1
      unfold setBitmapWord
      simp [Function.update_same, nonceBitPos]
  · intro cid s txs a n h
    have hle := applyAll_bitmapLe cid s txs
    unfold isNonceUsed at h ⊢
    rw [and_shift_ne_zero] at h ⊢
    exact hle a (nonceWordPos n) (nonceBitPos n) h

def nonceWitState : EngineState := applyAll 31337 initState [Tx.cancelNonce 1 3]

theorem nonce_bit_layout_witness :
    (isNonceUsed nonceWitState 1 300 =
      (nonceWitState.nonceBitmap 1 (300 / 256)).testBit (300 % 256)) ∧
    ((setBitmapWord initState 1 0 32).nonceBitmap 1 (nonceWordPos 5) =
      initState.nonceBitmap 1 (nonceWordPos 5) ||| 1 <<< (5 % 256)) ∧
    isNonceUsed (applyAll 31337 nonceWitState [Tx.cancelNonces 2 0 7]) 1 3 = true :=
  ⟨nonce_bit_layout_and_monotonicity.1 nonceWitState 1 300 (by norm_num [U256]),
   nonce_bit_layout_and_monotonicity.2.1 initState _ 1 5 rfl,
   nonce_bit_layout_and_monotonicity.2.2 31337 nonceWitState
     [Tx.cancelNonces 2 0 7] 1 3 (by decide)⟩

-- ═══════ C1: the reservedBond ≤ totalBond invariant ═══════

def c1Quote : Quote := ⟨1, 2, 3, 1, 4, 40000000000, .EXACT_OUTPUT, 31337, 100, 200, 0⟩

def c1Trace : List Tx :=
  [.registerSolver 1 2000000000,
   .requestUnstake 1 1000000000 0,
   .deposit c1Quote 7 true 1 0,
   .executeUnstake 1 604800]

/-- C1 fails on the code: solver 1 registers with 2_000e6 bond, requests an
unstake of 1_000e6 (all checks pass: nothing is reserved yet), a deposit then
reserves 2_000e6 (5% of outputAmount 40_000e6), and executeUnstake after the
timelock still subtracts 1_000e6 from totalBond without re-checking
reservedBond.  The resulting reachable state has totalBond = 1_000e6 <
reservedBond = 2_000e6. -/
theorem bond_invariant_violation :
    Reachable 31337 (applyAll 31337 initState c1Trace) ∧
    ((applyAll 31337 initState c1Trace).solvers 1).totalBond = 1000000000 ∧
    ((applyAll 31337 initState c1Trace).solvers 1).reservedBond = 2000000000 ∧
    ((applyAll 31337 initState c1Trace).solvers 1).totalBond <
      ((applyAll 31337 initState c1Trace).solvers 1).reservedBond :=
  ⟨⟨c1Trace, rfl⟩, by decide, by decide, by decide⟩

-- ═══════ C2: _slashBond functional behaviour ═══════

/-- The reservedBond update as claim C2 words it (spec refinement definition,
for comparison only): decrement by the slashed amount, clamped at zero. -/
def slashBondClaimReserved (info : SolverInfo) (outputAmount : Nat) : Nat :=
  info.reservedBond - min (outputAmount * BOND_RESERVATION_BPS / 10000) info.totalBond

def c2State : EngineState := setSolver initState 1 ⟨10, 20, 0, 0, true⟩

/-- C2's counterexample: at totalBond = 10, reservedBond = 20, outputAmount =
300 (reservation 15, slashed amount 10), the code leaves reservedBond =
20 - 15 = 5, while the claim's formula — decrement reservedBond by the slashed
amount clamped at zero — gives 20 - 10 = 10. -/
theorem slashBond_claim_counterexample :
    Except.map (fun p => ((p.1.solvers 1).reservedBond, p.2)) (slashBond c2State 1 300)
      = .ok (5, 10) ∧
    slashBondClaimReserved ⟨10, 20, 0, 0, true⟩ 300 = 10 ∧ (5 : Nat) ≠ 10 :=
  ⟨by decide, by decide, by decide⟩

/-- Full behaviour of _slashBond (helper shared by several proofs). -/
theorem slashBond_behavior (s : EngineState) (a : Addr) (outputAmount : Nat)
    (hof : outputAmount * BOND_RESERVATION_BPS < U256) :
    ∃ s1, slashBond s a outputAmount =
        .ok (s1, min (outputAmount * BOND_RESERVATION_BPS / 10000) (s.solvers a).totalBond) ∧
      (s1.solvers a).totalBond = (s.solvers a).totalBond -
        min (outputAmount * BOND_RESERVATION_BPS / 10000) (s.solvers a).totalBond ∧
      (s1.solvers a).reservedBond = (s.solvers a).reservedBond -
        outputAmount * BOND_RESERVATION_BPS / 10000 ∧
      ((s.solvers a).reservedBond ≤ (s.solvers a).totalBond →
        (s1.solvers a).reservedBond = (s.solvers a).reservedBond -
          min (outputAmount * BOND_RESERVATION_BPS / 10000) (s.solvers a).totalBond) ∧
      (s1.solvers a).unstakeAmount = (s.solvers a).unstakeAmount ∧
      (s1.solvers a).registered = (s.solvers a).registered := by
  unfold slashBond bondReservation
  rw [if_pos hof]
  dsimp only []
  have hsl : (if outputAmount * BOND_RESERVATION_BPS / 10000 > (s.solvers a).totalBond
      then (s.solvers a).totalBond else outputAmount * BOND_RESERVATION_BPS / 10000)
      = min (outputAmount * BOND_RESERVATION_BPS / 10000) (s.solvers a).totalBond := by
    split <;> omega
  rw [hsl]
  refine ⟨_, rfl, ?_, ?_, ?_, ?_, ?_⟩
  · simp [setSolver, Function.update_same]
  · simp only [setSolver, Function.update_same]
    split <;> omega
  · intro hle
    simp only [setSolver, Function.update_same]
    split <;> omega
  · simp [setSolver, Function.update_same]
  · simp [setSolver, Function.update_same]

/-- C2 amended: _slashBond returns slashed = min(outputAmount × 500 / 10_000,
totalBond) and decrements totalBond by slashed, but decrements reservedBond by
the full unclamped reservation, clamped at zero; that coincides with
decrementing by the slashed amount clamped at zero exactly on states
satisfying reservedBond ≤ totalBond. -/
theorem slashBond_characterization (s : EngineState) (a : Addr) (outputAmount : Nat)
    (hof : outputAmount * BOND_RESERVATION_BPS < U256) :
    ∃ s1, slashBond s a outputAmount =
        .ok (s1, min (outputAmount * BOND_RESERVATION_BPS / 10000) (s.solvers a).totalBond) ∧
      (s1.solvers a).totalBond = (s.solvers a).totalBond -
        min (outputAmount * BOND_RESERVATION_BPS / 10000) (s.solvers a).totalBond ∧
      (s1.solvers a).reservedBond = (s.solvers a).reservedBond -
        outputAmount * BOND_RESERVATION_BPS / 10000 ∧
      ((s.solvers a).reservedBond ≤ (s.solvers a).totalBond →
        (s1.solvers a).reservedBond = (s.solvers a).reservedBond -
          min (outputAmount * BOND_RESERVATION_BPS / 10000) (s.solvers a).totalBond) :=
  match slashBond_behavior s a outputAmount hof with
  | ⟨s1, h1, h2, h3, h4, _, _⟩ => ⟨s1, h1, h2, h3, h4⟩

theorem slashBond_characterization_witness :
    ∃ s1 k, slashBond c2State 1 300 = .ok (s1, k) ∧
      k = min (300 * BOND_RESERVATION_BPS / 10000) ((c2State.solvers 1)).totalBond := by
  obtain ⟨s1, h1, _⟩ := slashBond_characterization c2State 1 300 (by decide)
  exact ⟨s1, _, h1, rfl⟩

-- ═══════ C3: recorded inputAmount in the two deposit paths ═══════

/-- The order stored by a successful _validateAndCreateOrder is the quote's
order record in state DEPOSITED. -/
theorem validateAndCreateOrder_order {cid : Nat} {s s1 : EngineState} {q : Quote}
    {sigId : Nat} {sigOk : Bool} {now : Nat}
    (h : validateAndCreateOrder cid s q sigId sigOk now = .ok s1) :
    s1.orders (q, sigId) = orderFromQuote q .DEPOSITED := by
  unfold validateAndCreateOrder at h
  cases hval : validateQuote cid s q sigOk now with
  | error e => rw [hval] at h; exact Except.noConfusion h
  | ok u =>
    rw [hval] at h
    dsimp only [] at h
    by_cases hex : (s.orders (q, sigId)).state ≠ OrderState.NONE
    · rw [if_pos hex] at h; exact Except.noConfusion h
    · rw [if_neg hex] at h
      cases hn : useNonce s q.solver q.nonce with
      | error e => rw [hn] at h; exact Except.noConfusion h
      | ok sa =>
        rw [hn] at h
        dsimp only [] at h
        cases hr : reserveBond sa q.solver q.outputAmount with
        | error e => rw [hr] at h; exact Except.noConfusion h
        | ok sb =>
          rw [hr] at h
          dsimp only [] at h
          injection h with h1
          subst h1
          simp [setOrder, Function.update_same]

def c3State : EngineState := setSolver initState 1 ⟨1000000000, 0, 0, 0, true⟩

def c3Quote : Quote := ⟨1, 2, 3, 100, 4, 1000000, .EXACT_INPUT, 31337, 100, 200, 0⟩

/-- C3's counterexample: a successful depositWithPermit2 where the token
delivered only 97 of the requested 100 (fee-on-transfer) stores
order.inputAmount = 100 = quote.inputAmount rather than the received 97;
the plain deposit path at the same input stores 97.  The claim's
"in both deposit paths" is false for depositWithPermit2. -/
theorem permit2_stores_quoted_counterexample :
    Except.map (fun p => (p.1.orders (c3Quote, 0)).inputAmount)
        (execDepositWithPermit2 31337 c3State c3Quote 0 true 97 0) = .ok 100 ∧
    Except.map (fun p => (p.1.orders (c3Quote, 0)).inputAmount)
        (execDeposit 31337 c3State c3Quote 0 true 97 0) = .ok 97 ∧
    (100 : Nat) ≠ 97 :=
  ⟨by decide, by decide, by decide⟩

/-- C3 amended: every successful deposit stores the balance-difference
(actually received) amount into order.inputAmount, while every successful
depositWithPermit2 leaves order.inputAmount = quote.inputAmount — the
balance-difference recording exists only in the plain deposit path. -/
theorem deposit_inputAmount_recording (cid : Nat) (s : EngineState) (q : Quote)
    (sigId : Nat) (sigOk : Bool) (received now : Nat) :
    (∀ s1 tr, execDeposit cid s q sigId sigOk received now = .ok (s1, tr) →
        (s1.orders (q, sigId)).inputAmount = received) ∧
    (∀ s1 tr, execDepositWithPermit2 cid s q sigId sigOk received now = .ok (s1, tr) →
        (s1.orders (q, sigId)).inputAmount = q.inputAmount) := by
  constructor
  · intro s1 tr h
    unfold execDeposit at h
    cases hv : validateAndCreateOrder cid s q sigId sigOk now with
    | error e => rw [hv] at h; exact Except.noConfusion h
    | ok sa =>
      rw [hv] at h
      dsimp only [] at h
      injection h with h1
      injection h1 with h2 h3
      subst h2
      simp [setOrder, Function.update_same]
  · intro s1 tr h
    unfold execDepositWithPermit2 at h
    cases hv : validateAndCreateOrder cid s q sigId sigOk now with
    | error e => rw [hv] at h; exact Except.noConfusion h
    | ok sa =>
      rw [hv] at h
      dsimp only [] at h
      injection h with h1
      injection h1 with h2 h3
      subst h2
      rw [validateAndCreateOrder_order hv]
      rfl

theorem deposit_inputAmount_recording_witness :
    ∃ s1 tr, execDeposit 31337 c3State c3Quote 0 true 97 0 = .ok (s1, tr) ∧
      (s1.orders (c3Quote, 0)).inputAmount = 97 := by
  have h := (deposit_inputAmount_recording 31337 c3State c3Quote 0 true 97 0).1
  have hok : (execDeposit 31337 c3State c3Quote 0 true 97 0).isOk = true := by decide
  cases hx : execDeposit 31337 c3State c3Quote 0 true 97 0 with
  | error e => rw [hx] at hok; exact absurd hok (by simp [Except.isOk, Except.toBool])
  | ok p =>
    obtain ⟨s1, tr⟩ := p
    exact ⟨s1, tr, rfl, h s1 tr hx⟩

-- ═══════ C4: refund ═══════

/-- C4: refund(orderId) succeeds exactly when the stored order's state is
DEPOSITED and now is strictly past fillDeadline — OrderNotDeposited when the
state is anything else, OrderNotExpired when DEPOSITED but not yet expired.
On success it applies the 5% slash (slashed = min(outputAmount × 500 / 10_000,
totalBond), the spec's slash operation), marks the order REFUNDED, transfers
the order's inputAmount to the user, and transfers the slashed bond amount to
the user. -/
theorem refund_characterization (s : EngineState) (oid : OrderId) (now : Nat)
    (hof : (s.orders oid).outputAmount * BOND_RESERVATION_BPS < U256) :
    ((s.orders oid).state ≠ .DEPOSITED →
      execRefund s oid now = .error .OrderNotDeposited) ∧
    ((s.orders oid).state = .DEPOSITED → now ≤ (s.orders oid).fillDeadline →
      execRefund s oid now = .error .OrderNotExpired) ∧
    ((s.orders oid).state = .DEPOSITED → now > (s.orders oid).fillDeadline →
      ∃ s2,
        execRefund s oid now = .ok (s2,
          ⟨(s.orders oid).inputToken, (s.orders oid).user, (s.orders oid).inputAmount⟩ ::
          (if min ((s.orders oid).outputAmount * BOND_RESERVATION_BPS / 10000)
                ((s.solvers (s.orders oid).solver).totalBond) > 0 then
            [⟨bondTokenAddr, (s.orders oid).user,
              min ((s.orders oid).outputAmount * BOND_RESERVATION_BPS / 10000)
                ((s.solvers (s.orders oid).solver).totalBond)⟩]
          else [])) ∧
        (s2.orders oid).state = .REFUNDED ∧
        (s2.solvers (s.orders oid).solver).totalBond =
          (s.solvers (s.orders oid).solver).totalBond -
            min ((s.orders oid).outputAmount * BOND_RESERVATION_BPS / 10000)
              ((s.solvers (s.orders oid).solver).totalBond)) := by
  refine ⟨?_, ?_, ?_⟩
  · intro hne
    unfold execRefund
    dsimp only []
    rw [if_pos hne]
  · intro hdep hle
    unfold execRefund
    dsimp only []
    rw [if_neg (by simp [hdep]), if_pos hle]
  · intro hdep hgt
    unfold execRefund
    dsimp only []
    rw [if_neg (by simp [hdep]), if_neg (by omega)]
    obtain ⟨s1, hsl, htot, hres, hresle, hunst, hreg⟩ :=
      slashBond_behavior s (s.orders oid).solver (s.orders oid).outputAmount hof
    rw [hsl]
    dsimp only []
    refine ⟨_, rfl, ?_, ?_⟩
    · simp [setOrder, Function.update_same]
    · exact htot

def c4Quote : Quote :=
  ⟨1, 2, 3, 1148000000000000000000, 4, 200000000, .EXACT_OUTPUT, 31337, 100, 200, 5⟩

def c4State : EngineState :=
  setOrder (setSolver initState 1 ⟨1000000000, 10000000, 0, 0, true⟩)
    (c4Quote, 0) (orderFromQuote c4Quote .DEPOSITED)

theorem refund_characterization_witness :
    ∃ s2,
      execRefund c4State (c4Quote, 0) 201 = .ok (s2,
        [⟨3, 2, 1148000000000000000000⟩, ⟨bondTokenAddr, 2, 10000000⟩]) ∧
      (s2.orders (c4Quote, 0)).state = .REFUNDED ∧
      (s2.solvers 1).totalBond = 990000000 :=
  (refund_characterization c4State (c4Quote, 0) 201 (by decide)).2.2 (by decide) (by decide)

-- ═══════ C5: refundAddressDeposit ═══════

theorem validateQuoteCore_nonce_unused {cid : Nat} {s : EngineState} {q : Quote}
    {sigOk : Bool} (h : validateQuoteCore cid s q sigOk = .ok ()) :
    isNonceUsed s q.solver q.nonce = false := by
  unfold validateQuoteCore at h
  split at h
  · exact Except.noConfusion h
  · split at h
    · exact Except.noConfusion h
    · split at h
      · exact Except.noConfusion h
      · split at h
        · exact Except.noConfusion h
        · split at h
          · exact Except.noConfusion h
          · split at h
            · exact Except.noConfusion h
            · split at h
              · exact Except.noConfusion h
              · next hnu =>
                simpa using hnu

theorem useNonce_of_unused {s : EngineState} {a n : Nat}
    (h : isNonceUsed s a n = false) :
    useNonce s a n = .ok (setBitmapWord s a (nonceWordPos n)
      ((s.nonceBitmap a (nonceWordPos n)) ||| (1 <<< nonceBitPos n))) := by
  unfold isNonceUsed at h
  unfold useNonce
  dsimp only []
  rw [h]
  simp

/-- C5: for a quote whose core validation passes (valid signature), past its
fillDeadline, with no stored order: refundAddressDeposit reverts with
InsufficientDeposit when the deposit-address balance b is zero; when b > 0 it
stores the order as REFUNDED, sends the swept amount to the user, and slashes
the solver's bond iff b ≥ quote.inputAmount — in particular for
0 < b < inputAmount the solver's totalBond is unchanged. -/
theorem refundAddressDeposit_characterization (cid : Nat) (s : EngineState) (q : Quote)
    (sigId : Nat) (b recv now : Nat)
    (hval : validateQuoteCore cid s q true = .ok ())
    (hnone : (s.orders (q, sigId)).state = .NONE)
    (hexp : now > q.fillDeadline)
    (hof : q.outputAmount * BOND_RESERVATION_BPS < U256) :
    (b = 0 → execRefundAddressDeposit cid s q sigId true b recv now =
      .error .InsufficientDeposit) ∧
    (b > 0 → ∃ s3,
      execRefundAddressDeposit cid s q sigId true b recv now = .ok (s3,
        ⟨q.inputToken, q.user, recv⟩ ::
        (if (if b ≥ q.inputAmount then
              min (q.outputAmount * BOND_RESERVATION_BPS / 10000)
                ((s.solvers q.solver).totalBond)
             else 0) > 0 then
          [⟨bondTokenAddr, q.user,
            (if b ≥ q.inputAmount then
              min (q.outputAmount * BOND_RESERVATION_BPS / 10000)
                ((s.solvers q.solver).totalBond)
             else 0)⟩] else [])) ∧
      (s3.orders (q, sigId)).state = .REFUNDED ∧
      (s3.solvers q.solver).totalBond = (s.solvers q.solver).totalBond -
        (if b ≥ q.inputAmount then
          min (q.outputAmount * BOND_RESERVATION_BPS / 10000)
            ((s.solvers q.solver).totalBond)
         else 0) ∧
      (b < q.inputAmount →
        (s3.solvers q.solver).totalBond = (s.solvers q.solver).totalBond)) := by
  constructor
  · intro hb0
    unfold execRefundAddressDeposit
    rw [hval]
    dsimp only []
    rw [if_neg (by simp [hnone]), if_neg (by omega), if_pos hb0]
  · intro hbpos
    unfold execRefundAddressDeposit
    rw [hval]
    dsimp only []
    rw [if_neg (by simp [hnone]), if_neg (by omega), if_neg (by omega)]
    rw [useNonce_of_unused (validateQuoteCore_nonce_unused hval)]
    dsimp only []
    by_cases hfull : b ≥ q.inputAmount
    · simp only [if_pos hfull]
      obtain ⟨s2, hsl, htot, hres, hresle, hunst, hreg⟩ :=
        slashBond_behavior
          (setBitmapWord s q.solver (nonceWordPos q.nonce)
            ((s.nonceBitmap q.solver (nonceWordPos q.nonce)) ||| (1 <<< nonceBitPos q.nonce)))
          q.solver q.outputAmount hof
      rw [hsl]
      dsimp only []
      refine ⟨_, rfl, ?_, ?_, ?_⟩
      · simp [setOrder, Function.update_same, orderFromQuote]
      · exact htot
      · intro hlt
        omega
    · simp only [if_neg hfull]
      refine ⟨_, rfl, ?_, ?_, ?_⟩
      · simp [setOrder, Function.update_same, orderFromQuote]
      · simp only [Nat.sub_zero]
        rfl
      · intro hlt
        rfl

def c5State : EngineState := setSolver initState 1 ⟨1000000000, 0, 0, 0, true⟩

def c5Quote : Quote := ⟨1, 2, 3, 1148, 4, 200000000, .EXACT_OUTPUT, 31337, 100, 200, 9⟩

theorem refundAddressDeposit_witness :
    execRefundAddressDeposit 31337 c5State c5Quote 0 true 0 0 201 =
      .error .InsufficientDeposit ∧
    (∃ s3, execRefundAddressDeposit 31337 c5State c5Quote 0 true 1 1 201 = .ok (s3,
        [⟨3, 2, 1⟩]) ∧
      (s3.orders (c5Quote, 0)).state = .REFUNDED ∧
      (s3.solvers 1).totalBond = 1000000000 ∧
      (1 < c5Quote.inputAmount → (s3.solvers 1).totalBond = 1000000000)) :=
  ⟨(refundAddressDeposit_characterization 31337 c5State c5Quote 0 0 0 201
      (by decide) (by decide) (by decide) (by decide)).1 rfl,
   (refundAddressDeposit_characterization 31337 c5State c5Quote 0 1 1 201
      (by decide) (by decide) (by decide) (by decide)).2 (by decide)⟩

-- ═══════ C6: settle excess accounting and withdrawExcess ═══════

theorem useNonce_frame {s s' : EngineState} {a n : Nat} (h : useNonce s a n = .ok s') :
    s'.orders = s.orders ∧ s'.solvers = s.solvers ∧ s'.excessBalances = s.excessBalances := by
  unfold useNonce at h
  dsimp only [] at h
  split at h
  · exact Except.noConfusion h
  · injection h with h1
    subst h1
    exact ⟨rfl, rfl, rfl⟩

theorem withdrawExcess_spec (s : EngineState) (u t : Addr) :
    (s.excessBalances u t = 0 → execWithdrawExcess s u t = .error .NoExcessBalance) ∧
    (s.excessBalances u t > 0 →
      execWithdrawExcess s u t = .ok (setExcess s u t 0, [⟨t, u, s.excessBalances u t⟩]) ∧
      (setExcess s u t 0).excessBalances u t = 0) := by
  constructor
  · intro h0
    unfold execWithdrawExcess
    dsimp only []
    rw [if_pos h0]
  · intro hpos
    constructor
    · unfold execWithdrawExcess
      dsimp only []
      rw [if_neg (by omega)]
    · simp [setExcess, Function.update_same]

/-- C6: every successful settle emits exactly the output transfer to the user
and a transfer of min(received, quote.inputAmount) of the input token to the
solver, and increases excessBalances[user][inputToken] by received −
min(received, inputAmount); a subsequent withdrawExcess by the user transfers
exactly the accumulated balance and zeroes it, and reverts with
NoExcessBalance when the balance is zero. -/
theorem settle_excess_characterization (cid : Nat) (s : EngineState) (q : Quote)
    (sigId : Nat) (sigOk : Bool) (b recv now : Nat) (s3 : EngineState) (tr : List Transfer)
    (hok : execSettle cid s q sigId sigOk b recv now = .ok (s3, tr)) :
    tr = [⟨q.outputToken, q.user, q.outputAmount⟩,
          ⟨q.inputToken, q.solver, min recv q.inputAmount⟩] ∧
    s3.excessBalances q.user q.inputToken =
      s.excessBalances q.user q.inputToken + (recv - min recv q.inputAmount) ∧
    (s3.excessBalances q.user q.inputToken = 0 →
      execWithdrawExcess s3 q.user q.inputToken = .error .NoExcessBalance) ∧
    (s3.excessBalances q.user q.inputToken > 0 → ∃ s4,
      execWithdrawExcess s3 q.user q.inputToken =
        .ok (s4, [⟨q.inputToken, q.user, s3.excessBalances q.user q.inputToken⟩]) ∧
      s4.excessBalances q.user q.inputToken = 0) := by
  have hw := withdrawExcess_spec s3 q.user q.inputToken
  have hts : (if recv > q.inputAmount then q.inputAmount else recv)
      = min recv q.inputAmount := by
    split <;> omega
  have hmain : tr = [⟨q.outputToken, q.user, q.outputAmount⟩,
        ⟨q.inputToken, q.solver, min recv q.inputAmount⟩] ∧
      s3.excessBalances q.user q.inputToken =
        s.excessBalances q.user q.inputToken + (recv - min recv q.inputAmount) := by
    unfold execSettle at hok
    cases hval : validateQuote cid s q sigOk now with
    | error e => rw [hval] at hok; exact Except.noConfusion hok
    | ok u =>
      rw [hval] at hok
      dsimp only [] at hok
      by_cases hex : (s.orders (q, sigId)).state ≠ OrderState.NONE
      · rw [if_pos hex] at hok; exact Except.noConfusion hok
      · rw [if_neg hex] at hok
        by_cases hbal : b < q.inputAmount
        · rw [if_pos hbal] at hok; exact Except.noConfusion hok
        · rw [if_neg hbal] at hok
          cases hn : useNonce s q.solver q.nonce with
          | error e => rw [hn] at hok; exact Except.noConfusion hok
          | ok s1 =>
            rw [hn] at hok
            dsimp only [] at hok
            cases hc : checkBond s1 q.solver q.outputAmount with
            | error e => rw [hc] at hok; exact Except.noConfusion hok
            | ok u2 =>
              rw [hc] at hok
              dsimp only [] at hok
              obtain ⟨ho1, hs1, he1⟩ := useNonce_frame hn
              split at hok
              · exact Except.noConfusion hok
              next s3a hax =>
                injection hok with h1
                injection h1 with hs ht
                subst hs
                subst ht
                rw [hts] at hax
                constructor
                · rw [hts]
                · have he2 : (setOrder s1 (q, sigId)
                      (orderFromQuote q .SETTLED)).excessBalances q.user q.inputToken =
                      s.excessBalances q.user q.inputToken := by
                    show s1.excessBalances q.user q.inputToken =
                      s.excessBalances q.user q.inputToken
                    rw [he1]
                  split at hax
                  next hexc =>
                    unfold addExcess at hax
                    split at hax
                    · exact Except.noConfusion hax
                    · injection hax with h2
                      subst h2
                      simp only [setExcess, Function.update_same]
                      rw [he2]
                  next hexc =>
                    injection hax with h2
                    subst h2
                    rw [he2]
                    omega
  exact ⟨hmain.1, hmain.2, hw.1, fun hpos => ⟨_, (hw.2 hpos).1, (hw.2 hpos).2⟩⟩

def c6State : EngineState := setSolver initState 1 ⟨1000000000, 0, 0, 0, true⟩

def c6Quote : Quote := ⟨1, 2, 3, 500, 4, 200000000, .EXACT_OUTPUT, 31337, 100, 200, 0⟩

theorem settle_excess_witness :
    ∃ s3 tr, execSettle 31337 c6State c6Quote 0 true 700 700 50 = .ok (s3, tr) ∧
      tr = [⟨4, 2, 200000000⟩, ⟨3, 1, 500⟩] ∧
      s3.excessBalances 2 3 = 200 ∧
      (∃ s4, execWithdrawExcess s3 2 3 = .ok (s4, [⟨3, 2, 200⟩]) ∧
        s4.excessBalances 2 3 = 0) := by
  have hisok : (execSettle 31337 c6State c6Quote 0 true 700 700 50).isOk = true := by decide
  cases hx : execSettle 31337 c6State c6Quote 0 true 700 700 50 with
  | error e => rw [hx] at hisok; exact absurd hisok (by simp [Except.isOk, Except.toBool])
  | ok p =>
    obtain ⟨s3, tr⟩ := p
    have h := settle_excess_characterization 31337 c6State c6Quote 0 true 700 700 50 s3 tr hx
    have hexc : s3.excessBalances c6Quote.user c6Quote.inputToken = 200 :=
      h.2.1.trans (by decide)
    obtain ⟨s4, hw1, hw2⟩ := h.2.2.2 (by rw [hexc]; omega)
    rw [hexc] at hw1
    exact ⟨s3, tr, rfl, h.1.trans (by decide), hexc, s4, hw1, hw2⟩

-- ═══════ C9: recoverFromProxy frame ═══════

/-- C9: recoverFromProxy writes no engine storage at all — on success the
returned state is exactly the input state, so every orders entry, every solver
bond record, every nonce bitmap word and every excessBalances entry is
unchanged; it reverts with OrderNotFound unless the stored order's state is
SETTLED or REFUNDED; its only effect is the proxy sweep of `token` to
quote.user (which is the stored order's user whenever that order was created
from the same quote, as the last conjunct records). -/
theorem recoverFromProxy_frame (s : EngineState) (q : Quote) (sigId : Nat)
    (token : Addr) (bal : Nat) :
    ((s.orders (q, sigId)).state ≠ .SETTLED ∧ (s.orders (q, sigId)).state ≠ .REFUNDED →
      execRecoverFromProxy s q sigId token bal = .error .OrderNotFound) ∧
    ((s.orders (q, sigId)).state = .SETTLED ∨ (s.orders (q, sigId)).state = .REFUNDED →
      execRecoverFromProxy s q sigId token bal =
        .ok (s, if bal > 0 then [⟨token, q.user, bal⟩] else [])) ∧
    ((s.orders (q, sigId)).user = q.user →
      (if bal > 0 then [⟨token, q.user, bal⟩] else ([] : List Transfer)) =
        (if bal > 0 then [⟨token, (s.orders (q, sigId)).user, bal⟩] else [])) := by
  refine ⟨?_, ?_, ?_⟩
  · intro hst
    unfold execRecoverFromProxy
    dsimp only []
    rw [if_pos (by simp [hst.1, hst.2])]
  · intro hor
    unfold execRecoverFromProxy
    dsimp only []
    rw [if_neg (by rcases hor with h | h <;> simp [h])]
  · intro hu
    rw [hu]

def c9Quote : Quote := ⟨1, 2, 3, 500, 4, 200000000, .EXACT_OUTPUT, 31337, 100, 200, 1⟩

def c9State : EngineState :=
  setOrder initState (c9Quote, 3) (orderFromQuote c9Quote .SETTLED)

theorem recoverFromProxy_frame_witness :
    execRecoverFromProxy c9State c9Quote 3 7 42 =
      .ok (c9State, [⟨7, 2, 42⟩]) ∧
    execRecoverFromProxy initState c9Quote 3 7 42 = .error .OrderNotFound :=
  ⟨(recoverFromProxy_frame c9State c9Quote 3 7 42).2.1 (Or.inl (by decide)),
   (recoverFromProxy_frame initState c9Quote 3 7 42).1 (by decide)⟩

-- ═══════ C10: zero-address user rejection ═══════

theorem validateQuoteCore_zero_user {cid : Nat} {s : EngineState} {q : Quote}
    {sigOk : Bool} (hq : q.user = 0) :
    validateQuoteCore cid s q sigOk = .error .InvalidQuote := by
  unfold validateQuoteCore
  rw [if_pos hq]

theorem validateQuote_zero_user {cid : Nat} {s : EngineState} {q : Quote}
    {sigOk : Bool} {now : Nat} (hq : q.user = 0) :
    validateQuote cid s q sigOk now = .error .InvalidQuote := by
  unfold validateQuote
  rw [validateQuoteCore_zero_user hq]

theorem validateAndCreateOrder_zero_user {cid : Nat} {s : EngineState} {q : Quote}
    {sigId : Nat} {sigOk : Bool} {now : Nat} (hq : q.user = 0) :
    validateAndCreateOrder cid s q sigId sigOk now = .error .InvalidQuote := by
  unfold validateAndCreateOrder
  rw [validateQuote_zero_user hq]

/-- C10: every calldata-quote entry point — deposit, depositWithPermit2,
settle, settleWithTolerance, refundAddressDeposit, deployAndRecover — reverts
with InvalidQuote whenever quote.user is the zero address, for any state,
signature, time and balances. -/
theorem zero_user_reverts_invalid_quote (cid : Nat) (s : EngineState) (q : Quote)
    (sigId : Nat) (sigOk : Bool) (tol b recv now : Nat) (token : Addr)
    (hq : q.user = 0) :
    execDeposit cid s q sigId sigOk recv now = .error .InvalidQuote ∧
    execDepositWithPermit2 cid s q sigId sigOk recv now = .error .InvalidQuote ∧
    execSettle cid s q sigId sigOk b recv now = .error .InvalidQuote ∧
    execSettleWithTolerance cid s q sigId sigOk tol b recv now = .error .InvalidQuote ∧
    execRefundAddressDeposit cid s q sigId sigOk b recv now = .error .InvalidQuote ∧
    execDeployAndRecover cid s q sigId sigOk token recv now = .error .InvalidQuote := by
  refine ⟨?_, ?_, ?_, ?_, ?_, ?_⟩
  · unfold execDeposit
    rw [validateAndCreateOrder_zero_user hq]
  · unfold execDepositWithPermit2
    rw [validateAndCreateOrder_zero_user hq]
  · unfold execSettle
    rw [validateQuote_zero_user hq]
  · unfold execSettleWithTolerance
    by_cases h1 : tol > q.inputAmount
    · rw [if_pos h1]
    · rw [if_neg h1]
      by_cases h2 : tol = 0
      · rw [if_pos h2]
      · rw [if_neg h2, validateQuote_zero_user hq]
  · unfold execRefundAddressDeposit
    rw [validateQuoteCore_zero_user hq]
  · unfold execDeployAndRecover
    by_cases h1 : token = q.inputToken
    · rw [if_pos h1]
    · rw [if_neg h1, validateQuoteCore_zero_user hq]

def c10Quote : Quote := ⟨1, 0, 3, 100, 4, 1000000, .EXACT_INPUT, 31337, 100, 200, 0⟩

theorem zero_user_reverts_witness :
    execDeposit 31337 initState c10Quote 0 true 100 0 = .error .InvalidQuote ∧
    execDepositWithPermit2 31337 initState c10Quote 0 true 100 0 = .error .InvalidQuote ∧
    execSettle 31337 initState c10Quote 0 true 100 100 0 = .error .InvalidQuote ∧
    execSettleWithTolerance 31337 initState c10Quote 0 true 50 100 100 0 =
      .error .InvalidQuote ∧
    execRefundAddressDeposit 31337 initState c10Quote 0 true 100 100 0 =
      .error .InvalidQuote ∧
    execDeployAndRecover 31337 initState c10Quote 0 true 9 100 0 = .error .InvalidQuote :=
  zero_user_reverts_invalid_quote 31337 initState c10Quote 0 true 50 100 100 0 9 rfl

end FirmSwap
/-!
Quote aggregator (src/api/src/aggregator.ts).  rankQuotes sorts the verified
responses with a comparator that returns 1 or -1 and never 0.  ECMA-262's
Array.prototype.sort guarantees a stable, fully determined result only for
consistent comparators; for this never-zero comparator the relative order of
equal-amount quotes is implementation-defined (Node/V8's TimSort in fact
places them in reversed arrival order).  The sort is therefore modelled as a
relation: `RankedOutcome ot verified ranked` holds of every permutation of
the verified list that is ordered by the comparator — which is everything the
source determines about the result.  `assembleFrom` is the rest of getQuote
(aggregator.ts lines 141-173): best = ranked[0] keeps its signature,
alternatives = ranked.slice(1) with solverSignature stripped to "".
-/

namespace FirmSwapAgg

inductive AggOrderType where
  | EXACT_INPUT
  | EXACT_OUTPUT
deriving DecidableEq

/-- The fields of a serialized quote that ranking reads (the string bigints,
parsed with BigInt in the source, are modelled as Nat). -/
structure AggQuote where
  inputAmount : Nat
  outputAmount : Nat
deriving DecidableEq

/-- A solver's /quote response that survived validation. -/
structure SolverQuoteResponse where
  quote : AggQuote
  signature : String
deriving DecidableEq

/-- The comparator of rankQuotes (aggregator.ts lines 186-194): EXACT_INPUT →
1 exactly when b has strictly more output (descending by outputAmount),
EXACT_OUTPUT → 1 exactly when a needs strictly more input (ascending by
inputAmount); it never returns 0. -/
def quoteCmp (ot : AggOrderType) (a b : SolverQuoteResponse) : Int :=
  match ot with
  | .EXACT_INPUT => if b.quote.outputAmount > a.quote.outputAmount then 1 else -1
  | .EXACT_OUTPUT => if a.quote.inputAmount > b.quote.inputAmount then 1 else -1

/-- "the comparator lets a come before b": its value is ≤ 0. -/
def cmpKeep (ot : AggOrderType) (a b : SolverQuoteResponse) : Bool :=
  quoteCmp ot a b ≤ 0

instance (ot : AggOrderType) :
    DecidableRel (fun a b : SolverQuoteResponse => cmpKeep ot a b = true) :=
  fun _ _ => Bool.decEq _ _

/-- The results `[...quotes].sort(comparator)` may produce: a permutation of
the input ordered by the comparator.  The comparator never returns 0, so for
equal-amount quotes both relative orders satisfy this — their order is
implementation-defined per ECMA-262, and the model keeps every possibility. -/
def RankedOutcome (ot : AggOrderType) (verified ranked : List SolverQuoteResponse) :
    Prop :=
  List.Perm ranked verified ∧
    ranked.Pairwise (fun a b => cmpKeep ot a b = true)

structure AlternativeQuote where
  quote : AggQuote
  solverSignature : String
deriving DecidableEq

/-- The QuoteResponse core built from the ranked list (aggregator.ts lines
141-173): best = ranked[0] with its signature; alternatives = ranked.slice(1),
each with solverSignature stripped to "". -/
structure QuoteResponseOut where
  quote : AggQuote
  solverSignature : String
  alternativeQuotes : List AlternativeQuote
deriving DecidableEq

def assembleFrom (ranked : List SolverQuoteResponse) : Option QuoteResponseOut :=
  match ranked with
  | [] => none
  | best :: alternatives =>
    some ⟨best.quote, best.signature, alternatives.map (fun alt => ⟨alt.quote, ""⟩)⟩

theorem cmpKeep_exact_input_iff (a b : SolverQuoteResponse) :
    cmpKeep .EXACT_INPUT a b = true ↔ b.quote.outputAmount ≤ a.quote.outputAmount := by
  unfold cmpKeep quoteCmp
  by_cases h : b.quote.outputAmount > a.quote.outputAmount
  · rw [if_pos h]
    simp only [decide_eq_true_eq]
    omega
  · rw [if_neg h]
    simp only [decide_eq_true_eq]
    omega

theorem cmpKeep_exact_output_iff (a b : SolverQuoteResponse) :
    cmpKeep .EXACT_OUTPUT a b = true ↔ a.quote.inputAmount ≤ b.quote.inputAmount := by
  unfold cmpKeep quoteCmp
  by_cases h : a.quote.inputAmount > b.quote.inputAmount
  · rw [if_pos h]
    simp only [decide_eq_true_eq]
    omega
  · rw [if_neg h]
    simp only [decide_eq_true_eq]
    omega

theorem cmpKeep_total (ot : AggOrderType) :
    ∀ a b, cmpKeep ot a b = true ∨ cmpKeep ot b a = true := by
  intro a b
  cases ot
  · rw [cmpKeep_exact_input_iff, cmpKeep_exact_input_iff]
    omega
  · rw [cmpKeep_exact_output_iff, cmpKeep_exact_output_iff]
    omega

def tieA : SolverQuoteResponse := ⟨⟨1100, 200000000⟩, "sigA"⟩

def tieB : SolverQuoteResponse := ⟨⟨1100, 200000000⟩, "sigB"⟩

/-- C8's counterexample: with two verified EXACT_OUTPUT responses carrying
equal amounts — tieA arriving before tieB — the reversed list [tieB, tieA] is
also a sort outcome permitted by the comparator (it returns -1 on this pair
in both orders, so ECMA-262 leaves their relative order
implementation-defined; Node/V8's TimSort actually produces the reversed
order).  On that permitted outcome the aggregator returns the later arrival
tieB as best, so the claim's "ties broken by arrival order" does not hold of
the program. -/
theorem tie_break_counterexample :
    RankedOutcome .EXACT_OUTPUT [tieA, tieB] [tieB, tieA] ∧
    assembleFrom [tieB, tieA] =
      some ⟨tieB.quote, "sigB", [⟨tieA.quote, ""⟩]⟩ ∧
    tieB.signature = "sigB" ∧ "sigB" ≠ "sigA" := by
  refine ⟨⟨List.Perm.swap tieA tieB [], ?_⟩, rfl, rfl, by decide⟩
  refine List.Pairwise.cons ?_ (List.pairwise_singleton _ _)
  intro b hb
  rw [List.mem_singleton] at hb
  subst hb
  decide

/-- C8 amended: for every non-empty verified list and every result the sort
is allowed to return (a comparator-ordered permutation; equal-amount order is
implementation-defined rather than arrival order), the aggregator's best is a
verified quote with maximum outputAmount for EXACT_INPUT resp. minimum
inputAmount for EXACT_OUTPUT, every alternative quote carries an empty
solverSignature, and the alternatives are exactly the remaining verified
quotes. -/
theorem aggregator_best_and_alternatives (ot : AggOrderType)
    (verified ranked : List SolverQuoteResponse)
    (hrank : RankedOutcome ot verified ranked) (hne : verified ≠ []) :
    ∃ resp best, assembleFrom ranked = some resp ∧
      resp.quote = best.quote ∧ resp.solverSignature = best.signature ∧
      best ∈ verified ∧
      (ot = .EXACT_INPUT →
        ∀ q ∈ verified, q.quote.outputAmount ≤ best.quote.outputAmount) ∧
      (ot = .EXACT_OUTPUT →
        ∀ q ∈ verified, best.quote.inputAmount ≤ q.quote.inputAmount) ∧
      (∀ alt ∈ resp.alternativeQuotes, alt.solverSignature = "") ∧
      List.Perm (best.quote :: resp.alternativeQuotes.map AlternativeQuote.quote)
        (verified.map SolverQuoteResponse.quote) := by
  obtain ⟨hperm, hsorted⟩ := hrank
  cases ranked with
  | nil => exact absurd hperm.symm.eq_nil hne
  | cons best alts =>
    rw [List.pairwise_cons] at hsorted
    obtain ⟨hhd, _⟩ := hsorted
    have hbb : cmpKeep ot best best = true := by
      rcases cmpKeep_total ot best best with h | h <;> exact h
    have hall : ∀ q ∈ verified, cmpKeep ot best q = true := by
      intro q hq
      have hq2 : q ∈ best :: alts := hperm.mem_iff.mpr hq
      rcases List.mem_cons.mp hq2 with h1 | h1
      · rw [h1]
        exact hbb
      · exact hhd q h1
    refine ⟨⟨best.quote, best.signature,
        alts.map (fun alt : SolverQuoteResponse => (⟨alt.quote, ""⟩ : AlternativeQuote))⟩,
      best, rfl, rfl, rfl, hperm.mem_iff.mp (List.mem_cons_self best alts),
      ?_, ?_, ?_, ?_⟩
    · intro hot
      subst hot
      intro q hq
      have h1 := hall q hq
      rw [cmpKeep_exact_input_iff] at h1
      exact h1
    · intro hot
      subst hot
      intro q hq
      have h1 := hall q hq
      rw [cmpKeep_exact_output_iff] at h1
      exact h1
    · intro alt halt
      simp only [List.mem_map] at halt
      obtain ⟨r, hr2, hmap⟩ := halt
      rw [← hmap]
    · have h4 := hperm.map SolverQuoteResponse.quote
      simpa [List.map_map, Function.comp] using h4

def witA : SolverQuoteResponse := ⟨⟨1200000000000000000000, 200000000⟩, "sigA"⟩

def witB : SolverQuoteResponse := ⟨⟨1100000000000000000000, 200000000⟩, "sigB"⟩

theorem aggregator_best_witness :
    ∃ resp best,
      assembleFrom [witB, witA] = some resp ∧
      resp.quote = best.quote ∧ resp.solverSignature = best.signature ∧
      best ∈ [witA, witB] ∧
      (AggOrderType.EXACT_OUTPUT = .EXACT_INPUT →
        ∀ q ∈ [witA, witB], q.quote.outputAmount ≤ best.quote.outputAmount) ∧
      (AggOrderType.EXACT_OUTPUT = .EXACT_OUTPUT →
        ∀ q ∈ [witA, witB], best.quote.inputAmount ≤ q.quote.inputAmount) ∧
      (∀ alt ∈ resp.alternativeQuotes, alt.solverSignature = "") ∧
      List.Perm (best.quote :: resp.alternativeQuotes.map AlternativeQuote.quote)
        ([witA, witB].map SolverQuoteResponse.quote) :=
  aggregator_best_and_alternatives .EXACT_OUTPUT [witA, witB] [witB, witA]
    ⟨List.Perm.swap witA witB [],
     List.Pairwise.cons (by intro b hb; rw [List.mem_singleton] at hb; subst hb; decide)
       (List.pairwise_singleton _ _)⟩
    (by decide)

end FirmSwapAgg
